import Mathlib

/-!
Verification of the Bookworm backend (`server.js`).

The development shallowly embeds the authentication core of the server:
the combined login-or-register endpoint `POST /api/login`, the JWT
issue/verify pair (`jsonwebtoken`), the `auth` middleware that gates the
protected routes, `GET /api/me`, and the reading-list insert
`POST /api/reading`.

Strings are modelled as `List Char` (`Str`).  The bcrypt library is
modelled by its contract: a salted hash is a record of cost, salt and
password, and `compare` checks the password against the record
irrespective of the salt.  The JWT wire token is modelled as a concrete
space-free character string (code points rendered in decimal, fields
separated by punctuation, an HMAC-style signature appended), so the
middleware's `h.split(' ')[1]` extraction is modelled over real strings.
-/

/-- Strings of the JavaScript program, modelled as lists of characters. -/
abbrev Str := List Char

/-! ## Decimal digits: rendering and parsing of natural numbers -/

/-- Character class of ASCII decimal digits. -/
def isDigitCh (c : Char) : Bool := 48 ≤ c.toNat && c.toNat ≤ 57

/-- Numeric value of an ASCII digit character. -/
def charVal (c : Char) : Nat := c.toNat - 48

/-- Fold each digit into an accumulator, most significant first. -/
def parseAux (a : Nat) : Str → Nat
  | [] => a
  | c :: cs => parseAux (10 * a + charVal c) cs

/-- Parse a nonempty all-digit string as a natural number; otherwise fail. -/
def parseNatChecked (s : Str) : Option Nat :=
  if s.isEmpty then none
  else if s.all isDigitCh then some (parseAux 0 s) else none

/-- Decimal rendering of a natural number, fuelled so that it reduces in the
kernel; the fuel bounds the number being rendered. -/
def natDigitsF : Nat → Nat → Str
  | 0, _ => []
  | f + 1, n =>
    if n < 10 then [Nat.digitChar n]
    else natDigitsF f (n / 10) ++ [Nat.digitChar (n % 10)]

/-- Decimal rendering of a natural number, most significant digit first. -/
def natDigits (n : Nat) : Str := natDigitsF (n + 1) n

theorem parseAux_nil (a : Nat) : parseAux a [] = a := rfl

theorem parseAux_cons (a : Nat) (c : Char) (cs : Str) :
    parseAux a (c :: cs) = parseAux (10 * a + charVal c) cs := rfl

theorem natDigitsF_succ (f n : Nat) :
    natDigitsF (f + 1) n =
      if n < 10 then [Nat.digitChar n]
      else natDigitsF f (n / 10) ++ [Nat.digitChar (n % 10)] := rfl

theorem parseAux_append (a : Nat) (xs ys : Str) :
    parseAux a (xs ++ ys) = parseAux (parseAux a xs) ys := by
  induction xs generalizing a with
  | nil => rfl
  | cons c cs ih => rw [List.cons_append, parseAux_cons, parseAux_cons, ih]

theorem charVal_digitChar {d : Nat} (h : d < 10) :
    charVal (Nat.digitChar d) = d := by
  interval_cases d <;> decide

theorem isDigitCh_digitChar {d : Nat} (h : d < 10) :
    isDigitCh (Nat.digitChar d) = true := by
  interval_cases d <;> decide

theorem natDigitsF_all_digit {f n : Nat} (h : n < f) :
    ∀ c ∈ natDigitsF f n, isDigitCh c = true := by
  induction f generalizing n with
  | zero => omega
  | succ f ih =>
    intro c hc
    rw [natDigitsF_succ] at hc
    by_cases h10 : n < 10
    · simp [h10] at hc
      subst hc; exact isDigitCh_digitChar h10
    · simp [h10] at hc
      rcases hc with hc | hc
      · exact ih (by omega) c hc
      · subst hc; exact isDigitCh_digitChar (Nat.mod_lt _ (by omega))

theorem natDigitsF_ne_nil {f n : Nat} (h : n < f) :
    natDigitsF f n ≠ [] := by
  cases f with
  | zero => omega
  | succ f =>
    rw [natDigitsF_succ]
    by_cases h10 : n < 10 <;> simp [h10]

theorem parseAux_natDigitsF {f n : Nat} (h : n < f) (a : Nat) :
    parseAux a (natDigitsF f n) = a * 10 ^ (natDigitsF f n).length + n := by
  induction f generalizing n a with
  | zero => omega
  | succ f ih =>
    rw [natDigitsF_succ]
    by_cases h10 : n < 10
    · simp only [h10, if_true, parseAux_cons, parseAux_nil,
        charVal_digitChar h10, List.length_singleton]
      ring
    · have hrec : n / 10 < f := by
        have : n / 10 < n := Nat.div_lt_self (by omega) (by omega)
        omega
      simp only [h10, if_false, parseAux_append, ih hrec,
        List.length_append, List.length_singleton, parseAux_cons, parseAux_nil,
        charVal_digitChar (Nat.mod_lt n (show 0 < 10 by omega))]
      have := Nat.div_add_mod n 10
      ring_nf
      omega

theorem natDigits_all_digit (n : Nat) :
    ∀ c ∈ natDigits n, isDigitCh c = true :=
  natDigitsF_all_digit (Nat.lt_succ_self n)

theorem natDigits_ne_nil (n : Nat) : natDigits n ≠ [] :=
  natDigitsF_ne_nil (Nat.lt_succ_self n)

theorem parseNatChecked_natDigits (n : Nat) :
    parseNatChecked (natDigits n) = some n := by
  have hne := natDigits_ne_nil n
  have hall : (natDigits n).all isDigitCh = true :=
    List.all_eq_true.mpr (natDigits_all_digit n)
  have hval : parseAux 0 (natDigits n) = n := by
    have := parseAux_natDigitsF (Nat.lt_succ_self n) 0
    simpa [natDigits] using this
  simp [parseNatChecked, List.isEmpty_iff, hne, hall, hval]

/-! ## Splitting and trimming, mirroring JavaScript string primitives -/

/-- Split at the first occurrence of `sep`, returning the parts before and
after it; fails when `sep` does not occur. -/
def splitOnceAt (sep : Char) : Str → Option (Str × Str)
  | [] => none
  | c :: cs =>
    if c = sep then some ([], cs)
    else (splitOnceAt sep cs).map (fun p => (c :: p.1, p.2))

theorem splitOnceAt_nil (sep : Char) : splitOnceAt sep [] = none := rfl

theorem splitOnceAt_cons (sep c : Char) (cs : Str) :
    splitOnceAt sep (c :: cs) =
      if c = sep then some ([], cs)
      else (splitOnceAt sep cs).map (fun p => (c :: p.1, p.2)) := rfl

theorem splitOnceAt_append (sep : Char) (xs ys : Str)
    (h : ∀ c ∈ xs, c ≠ sep) :
    splitOnceAt sep (xs ++ sep :: ys) = some (xs, ys) := by
  induction xs with
  | nil => simp [splitOnceAt_cons]
  | cons c cs ih =>
    have hc : c ≠ sep := h c (List.mem_cons_self c cs)
    rw [List.cons_append, splitOnceAt_cons, if_neg hc,
      ih (fun d hd => h d (List.mem_cons_of_mem c hd))]
    rfl

theorem splitOnceAt_shrink (sep : Char) :
    ∀ s a b, splitOnceAt sep s = some (a, b) → b.length < s.length := by
  intro s
  induction s with
  | nil => intro a b h; simp [splitOnceAt_nil] at h
  | cons c cs ih =>
    intro a b h
    rw [splitOnceAt_cons] at h
    by_cases hc : c = sep
    · rw [if_pos hc] at h
      cases h
      simp
    · rw [if_neg hc] at h
      cases hsplit : splitOnceAt sep cs with
      | none => rw [hsplit] at h; simp at h
      | some p =>
        rw [hsplit] at h
        cases h
        have := ih p.1 p.2 (by rw [hsplit])
        simpa using Nat.lt_trans this (Nat.lt_succ_self _)

/-- Split on every single space character, i.e. JavaScript
`s.split(' ')`: empty components are kept. -/
def splitSp : Str → List Str
  | [] => [[]]
  | c :: cs =>
    if c = ' ' then [] :: splitSp cs
    else
      match splitSp cs with
      | [] => [[c]]
      | w :: ws => (c :: w) :: ws

theorem splitSp_nil : splitSp [] = [[]] := rfl

theorem splitSp_cons (c : Char) (cs : Str) :
    splitSp (c :: cs) =
      if c = ' ' then [] :: splitSp cs
      else
        match splitSp cs with
        | [] => [[c]]
        | w :: ws => (c :: w) :: ws := rfl

theorem splitSp_no_space (t : Str) (h : ∀ c ∈ t, c ≠ ' ') :
    splitSp t = [t] := by
  induction t with
  | nil => rfl
  | cons c cs ih =>
    rw [splitSp_cons, if_neg (h c (List.mem_cons_self c cs)),
      ih (fun d hd => h d (List.mem_cons_of_mem c hd))]

theorem splitSp_word_append (w t : Str) (hw : ∀ c ∈ w, c ≠ ' ') :
    splitSp (w ++ ' ' :: t) = w :: splitSp t := by
  induction w with
  | nil => simp [splitSp_cons]
  | cons c cs ih =>
    rw [List.cons_append, splitSp_cons,
      if_neg (hw c (List.mem_cons_self c cs)),
      ih (fun d hd => hw d (List.mem_cons_of_mem c hd))]

/-- Whitespace characters removed by JavaScript `trim()` (the ones that
matter here). -/
def isWS (c : Char) : Bool := c = ' ' || c = '\t' || c = '\n' || c = '\r'

/-- JavaScript `s.trim()`: strip whitespace from both ends. -/
def trimStr (s : Str) : Str :=
  ((s.dropWhile isWS).reverse.dropWhile isWS).reverse

theorem dropWhile_of_head_not {p : Char → Bool} :
    ∀ s : Str, (∀ c ∈ s, p c = false) → s.dropWhile p = s := by
  intro s h
  cases s with
  | nil => rfl
  | cons c cs =>
    rw [List.dropWhile_cons, h c (List.mem_cons_self c cs)]
    simp

theorem trimStr_no_ws (s : Str) (h : ∀ c ∈ s, isWS c = false) :
    trimStr s = s := by
  unfold trimStr
  rw [dropWhile_of_head_not s h,
    dropWhile_of_head_not s.reverse (fun c hc => h c (List.mem_reverse.mp hc)),
    List.reverse_reverse]

/-! ## Code-point encoding of strings (the JWT payload alphabet) -/

/-- Render a string as decimal code points, a comma after each digit
group; the result contains only digits and commas. -/
def encStr : Str → Str
  | [] => []
  | c :: cs => natDigits c.toNat ++ ',' :: encStr cs

theorem encStr_nil : encStr [] = [] := rfl

theorem encStr_cons (c : Char) (cs : Str) :
    encStr (c :: cs) = natDigits c.toNat ++ ',' :: encStr cs := rfl

theorem encStr_chars (s : Str) :
    ∀ c ∈ encStr s, isDigitCh c = true ∨ c = ',' := by
  induction s with
  | nil => intro c hc; simp [encStr_nil] at hc
  | cons x xs ih =>
    intro c hc
    rw [encStr_cons] at hc
    rcases List.mem_append.mp hc with hc | hc
    · exact Or.inl (natDigits_all_digit _ c hc)
    · rcases List.mem_cons.mp hc with hc | hc
      · exact Or.inr hc
      · exact ih c hc

/-- Decode a code-point rendering, with explicit fuel so that the
definition reduces in the kernel. -/
def decStrF : Nat → Str → Option Str
  | _, [] => some []
  | 0, _ :: _ => none
  | f + 1, s =>
    match splitOnceAt ',' s with
    | none => none
    | some (ds, r) =>
      match parseNatChecked ds with
      | none => none
      | some n => (decStrF f r).map (fun cs => Char.ofNat n :: cs)

/-- Decode a code-point rendering of a string. -/
def decStr (s : Str) : Option Str := decStrF s.length s

theorem decStrF_nil (f : Nat) : decStrF f [] = some [] := by
  cases f <;> rfl

theorem decStrF_succ (f : Nat) (c : Char) (cs : Str) :
    decStrF (f + 1) (c :: cs) =
      match splitOnceAt ',' (c :: cs) with
      | none => none
      | some (ds, r) =>
        match parseNatChecked ds with
        | none => none
        | some n => (decStrF f r).map (fun l => Char.ofNat n :: l) := rfl

theorem decStrF_step (f : Nat) (s : Str) (hs : s ≠ []) :
    decStrF (f + 1) s =
      match splitOnceAt ',' s with
      | none => none
      | some (ds, r) =>
        match parseNatChecked ds with
        | none => none
        | some n => (decStrF f r).map (fun l => Char.ofNat n :: l) := by
  cases s with
  | nil => exact absurd rfl hs
  | cons c cs => rfl

theorem natDigits_ne_comma (n : Nat) : ∀ c ∈ natDigits n, c ≠ ',' := by
  intro c hc he
  subst he
  exact absurd (natDigits_all_digit n _ hc) (by decide)

theorem natDigits_ne_semicolon (n : Nat) : ∀ c ∈ natDigits n, c ≠ ';' := by
  intro c hc he
  subst he
  exact absurd (natDigits_all_digit n _ hc) (by decide)

theorem encStr_ne_semicolon (s : Str) : ∀ c ∈ encStr s, c ≠ ';' := by
  intro c hc he
  subst he
  rcases encStr_chars s _ hc with h | h
  · exact absurd h (by decide)
  · exact absurd h (by decide)

theorem decStrF_encStr (s : Str) :
    ∀ fuel, (encStr s).length ≤ fuel → decStrF fuel (encStr s) = some s := by
  induction s with
  | nil => intro fuel hf; rw [encStr_nil, decStrF_nil]
  | cons c cs ih =>
    intro fuel hf
    have hnd := natDigits_ne_nil c.toNat
    have hndlen : 1 ≤ (natDigits c.toNat).length := by
      cases h : natDigits c.toNat with
      | nil => exact absurd h hnd
      | cons d ds => simp
    have hlen : (encStr (c :: cs)).length =
        (natDigits c.toNat).length + 1 + (encStr cs).length := by
      rw [encStr_cons]; simp; omega
    cases fuel with
    | zero => omega
    | succ f =>
      have hne : encStr (c :: cs) ≠ [] := by
        intro h
        rw [h] at hlen
        simp at hlen
        omega
      rw [decStrF_step f _ hne, encStr_cons,
        splitOnceAt_append ',' _ _ (natDigits_ne_comma c.toNat)]
      have hcs : (encStr cs).length ≤ f := by omega
      simp [parseNatChecked_natDigits, ih f hcs, Char.ofNat_toNat]

theorem decStr_encStr (s : Str) : decStr (encStr s) = some s :=
  decStrF_encStr s (encStr s).length (Nat.le_refl _)

/-! ## The session token (model of the `jsonwebtoken` library) -/

/-- Decoded contents of a session token: the identity claim and the
`iat`/`exp` timestamps (seconds). -/
structure JwtPayload where
  email : Str
  iat : Nat
  exp : Nat
deriving DecidableEq, Repr

/-- Wire rendering of a token payload: code-point encoded email, then the
two timestamps in decimal, all separated by semicolons.  The result
contains only digits, commas and semicolons. -/
def payloadStr (p : JwtPayload) : Str :=
  encStr p.email ++ ';' :: natDigits p.iat ++ ';' :: natDigits p.exp

/-- Keyed signature over a message: deterministic in the secret and the
message, as an HMAC is. -/
def hmacSig (secret msg : Str) : Str := encStr secret ++ '.' :: msg

namespace jwt

/-- Model of `jwt.sign({ email }, secret, { expiresIn: '7d' })`: payload
followed by the signature, expiry seven days after issuance. -/
def sign (email : Str) (secret : Str) (now : Nat) : Str :=
  let p : JwtPayload := ⟨email, now, now + 7 * 24 * 60 * 60⟩
  payloadStr p ++ ';' :: hmacSig secret (payloadStr p)

/-- Structural decoding of a wire token into a payload and the attached
signature; fails on malformed input. -/
def decode (tok : Str) : Option (JwtPayload × Str) := do
  let (e1, r1) ← splitOnceAt ';' tok
  let email ← decStr e1
  let (d1, r2) ← splitOnceAt ';' r1
  let iat ← parseNatChecked d1
  let (d2, sig) ← splitOnceAt ';' r2
  let exp ← parseNatChecked d2
  pure (⟨email, iat, exp⟩, sig)

/-- Model of `jwt.verify(token, secret)` at time `now` (seconds): decode,
recompute the signature, check expiry.  Yields the payload or fails. -/
def verify (tok secret : Str) (now : Nat) : Option JwtPayload :=
  match decode tok with
  | none => none
  | some (p, sig) =>
    if sig = hmacSig secret (payloadStr p) ∧ now < p.exp then some p else none

theorem decode_payload (p : JwtPayload) (sig : Str) :
    decode (payloadStr p ++ ';' :: sig) = some (p, sig) := by
  have h1 : payloadStr p ++ ';' :: sig =
      encStr p.email ++ ';' ::
        (natDigits p.iat ++ ';' :: (natDigits p.exp ++ ';' :: sig)) := by
    rw [payloadStr]; simp
  rw [decode, h1, splitOnceAt_append ';' _ _ (encStr_ne_semicolon p.email)]
  simp only [Option.bind_eq_bind, Option.some_bind, decStr_encStr,
    splitOnceAt_append ';' _ _ (natDigits_ne_semicolon p.iat),
    splitOnceAt_append ';' _ _ (natDigits_ne_semicolon p.exp),
    parseNatChecked_natDigits]
  rfl

theorem verify_sign (email secret : Str) (t0 now : Nat)
    (h : now < t0 + 7 * 24 * 60 * 60) :
    verify (sign email secret t0) secret now =
      some ⟨email, t0, t0 + 7 * 24 * 60 * 60⟩ := by
  rw [verify, sign, decode_payload]
  simp [h]

end jwt

/-! ## Wire tokens contain no whitespace -/

/-- Characters that can occur in a wire token: digits, commas,
semicolons, dots. -/
def isTokCh (c : Char) : Bool := isDigitCh c || c = ',' || c = ';' || c = '.'

theorem isDigitCh_tok {c : Char} (h : isDigitCh c = true) : isTokCh c = true := by
  simp [isTokCh, h]

theorem natDigits_tok (n : Nat) : ∀ c ∈ natDigits n, isTokCh c = true :=
  fun c hc => isDigitCh_tok (natDigits_all_digit n c hc)

theorem encStr_tok (s : Str) : ∀ c ∈ encStr s, isTokCh c = true := by
  intro c hc
  rcases encStr_chars s c hc with h | h
  · exact isDigitCh_tok h
  · subst h; decide

theorem payloadStr_tok (p : JwtPayload) :
    ∀ c ∈ payloadStr p, isTokCh c = true := by
  intro c hc
  rw [payloadStr] at hc
  rcases List.mem_append.mp hc with hc | hc
  · rcases List.mem_append.mp hc with h | h
    · exact encStr_tok _ c h
    · rcases List.mem_cons.mp h with h | h
      · subst h; decide
      · exact natDigits_tok _ c h
  · rcases List.mem_cons.mp hc with h | h
    · subst h; decide
    · exact natDigits_tok _ c h

theorem hmacSig_tok (secret msg : Str) (hmsg : ∀ c ∈ msg, isTokCh c = true) :
    ∀ c ∈ hmacSig secret msg, isTokCh c = true := by
  intro c hc
  rw [hmacSig] at hc
  rcases List.mem_append.mp hc with hc | hc
  · exact encStr_tok _ c hc
  · rcases List.mem_cons.mp hc with hc | hc
    · subst hc; decide
    · exact hmsg c hc

theorem sign_tok (email secret : Str) (t0 : Nat) :
    ∀ c ∈ jwt.sign email secret t0, isTokCh c = true := by
  intro c hc
  rw [jwt.sign] at hc
  rcases List.mem_append.mp hc with hc | hc
  · exact payloadStr_tok _ c hc
  · rcases List.mem_cons.mp hc with hc | hc
    · subst hc; decide
    · exact hmacSig_tok _ _ (payloadStr_tok _) c hc

theorem isTokCh_not_ws {c : Char} (h : isTokCh c = true) : isWS c = false := by
  have hne : c ≠ ' ' ∧ c ≠ '\t' ∧ c ≠ '\n' ∧ c ≠ '\r' := by
    refine ⟨?_, ?_, ?_, ?_⟩ <;>
      (intro he; subst he; exact absurd h (by decide))
  simp [isWS, hne.1, hne.2.1, hne.2.2.1, hne.2.2.2]

theorem sign_no_ws (email secret : Str) (t0 : Nat) :
    ∀ c ∈ jwt.sign email secret t0, isWS c = false :=
  fun c hc => isTokCh_not_ws (sign_tok email secret t0 c hc)

theorem sign_no_space (email secret : Str) (t0 : Nat) :
    ∀ c ∈ jwt.sign email secret t0, c ≠ ' ' := by
  intro c hc he
  subst he
  have := sign_no_ws email secret t0 ' ' hc
  simp [isWS] at this

theorem sign_ne_nil (email secret : Str) (t0 : Nat) :
    jwt.sign email secret t0 ≠ [] := by
  rw [jwt.sign]
  intro h
  have := congrArg List.length h
  simp at this

/-! ## The bcrypt library, modelled by its contract -/

/-- Model of a bcrypt digest: a salted one-way hash remembers the cost
factor, the salt, and (abstractly) the hashed password. -/
structure BcryptHash where
  cost : Nat
  salt : Nat
  password : Str
deriving DecidableEq, Repr

namespace bcrypt

/-- Model of `bcrypt.hash(password, cost)`; the salt is the library's
internal randomness, passed in explicitly. -/
def hash (password : Str) (cost salt : Nat) : BcryptHash :=
  ⟨cost, salt, password⟩

/-- Model of `bcrypt.compare(password, digest)`: true exactly when the
digest was produced from this password, whatever the salt was. -/
def compare (password : Str) (digest : BcryptHash) : Bool :=
  password == digest.password

end bcrypt

/-! ## The Credential Store and the login-or-register endpoint -/

/-- An Account record of the `User` collection. -/
structure Account where
  email : Str
  passwordHash : BcryptHash
  createdAt : Nat
deriving DecidableEq, Repr

/-- Model of `User.findOne({ email })` over the store's insertion order. -/
def findOne (db : List Account) (email : Str) : Option Account :=
  db.find? (fun u => u.email == email)

/-- The accepted-domain suffix checked by the endpoint. -/
def gmailSuffix : Str := "@gmail.com".toList

/-- Outcome of `POST /api/login`. -/
inductive LoginResult where
  | badRequest (error : String)
  | unauthorized (error : String)
  | ok (token : Str) (email : Str)
deriving DecidableEq, Repr

/-- HTTP status carried by each `LoginResult`. -/
def LoginResult.statusCode : LoginResult → Nat
  | .badRequest _ => 400
  | .unauthorized _ => 401
  | .ok _ _ => 200

/-- Model of the `app.post('/api/login')` handler.  `email?` and
`password?` are the request-body fields (absent fields are `none`);
`salt` is bcrypt's internal randomness; `now` is the clock used both for
`createdAt` and for the token timestamps; `secret` is `JWT_SECRET`.
Returns the response together with the store after the request. -/
def loginHandler (db : List Account) (email? password? : Option Str)
    (salt now : Nat) (secret : Str) : LoginResult × List Account :=
  let email := email?.getD []
  let password := password?.getD []
  if email.isEmpty || password.isEmpty then
    (.badRequest "Missing email or password", db)
  else if !(gmailSuffix.isSuffixOf email) then
    (.badRequest "Only Gmail accounts are allowed", db)
  else
    match findOne db email with
    | none =>
      let user : Account := ⟨email, bcrypt.hash password 10 salt, now⟩
      (.ok (jwt.sign user.email secret now) user.email, db ++ [user])
    | some user =>
      if !(bcrypt.compare password user.passwordHash) then
        (.unauthorized "Incorrect password", db)
      else
        (.ok (jwt.sign user.email secret now) user.email, db)

/-! ## The Access Guard (`auth` middleware) and protected endpoints -/

/-- Outcome of the `auth` middleware: either a 401 response, or the
request proceeds with `req.user` set to the decoded payload. -/
inductive AuthOutcome where
  | unauthorized (error : String)
  | proceed (user : JwtPayload)
deriving DecidableEq, Repr

/-- Model of the `auth` middleware: take `req.headers.authorization`,
reject a falsy header, extract `h.split(' ')[1] || ''` trimmed, and
verify it as a JWT. -/
def auth (authorization : Option Str) (secret : Str) (now : Nat) : AuthOutcome :=
  let h := authorization.getD []
  if h.isEmpty then .unauthorized "No token"
  else
    let token := trimStr ((splitSp h).getD 1 [])
    match jwt.verify token secret now with
    | some decoded => .proceed decoded
    | none => .unauthorized "Invalid token"

/-- Projection of an Account under `{ passwordHash: 0 }`: the record the
client sees, with no password-hash field at all. -/
structure PublicUser where
  email : Str
  createdAt : Nat
deriving DecidableEq, Repr

/-- Outcome of `GET /api/me`: a 401 from the guard, or 200 with the
projected record (`none` models a `null` body). -/
inductive MeResult where
  | unauthorized (error : String)
  | ok (user : Option PublicUser)
deriving DecidableEq, Repr

/-- Model of `app.get('/api/me')`: the guard first, then
`User.findOne({ email }, { passwordHash: 0 })` for the caller. -/
def meHandler (db : List Account) (authorization : Option Str)
    (secret : Str) (now : Nat) : MeResult :=
  match auth authorization secret now with
  | .unauthorized e => .unauthorized e
  | .proceed u => .ok ((findOne db u.email).map (fun a => ⟨a.email, a.createdAt⟩))

/-! ## The reading-list insert -/

/-- Request body of `POST /api/reading`. -/
structure ReadingBody where
  bookKey : Option Str
  title : Option Str
  coverId : Option Nat
  authors : Option (List Str)
deriving Repr

/-- A `ReadingList` document. -/
structure RLEntry where
  userEmail : Str
  bookKey : Str
  title : Option Str
  coverId : Option Nat
  authors : Option (List Str)
  createdAt : Nat
deriving DecidableEq, Repr

/-- Outcome of `POST /api/reading` past the guard. -/
inductive ReadingResult where
  | badRequest (error : String)
  | conflict (error : String)
  | ok (item : RLEntry)
deriving DecidableEq, Repr

/-- HTTP status carried by each `ReadingResult`. -/
def ReadingResult.statusCode : ReadingResult → Nat
  | .badRequest _ => 400
  | .conflict _ => 409
  | .ok _ => 200

/-- Model of the `app.post('/api/reading')` handler body, run for an
authenticated caller `userEmail` (`req.user.email`): reject a falsy
`bookKey`, 409 when a `(userEmail, bookKey)` document exists, otherwise
create the entry. -/
def addReadingHandler (rl : List RLEntry) (userEmail : Str)
    (body : ReadingBody) (now : Nat) : ReadingResult × List RLEntry :=
  let bookKey := body.bookKey.getD []
  if bookKey.isEmpty then (.badRequest "Book key is required", rl)
  else
    match rl.find? (fun it => it.userEmail == userEmail && it.bookKey == bookKey) with
    | some _ => (.conflict "Already in reading list", rl)
    | none =>
      let item : RLEntry :=
        ⟨userEmail, bookKey, body.title, body.coverId, body.authors, now⟩
      (.ok item, rl ++ [item])

/-! ## Behaviour of the Access Guard on concrete header shapes -/

theorem auth_absent (secret : Str) (now : Nat) :
    auth none secret now = .unauthorized "No token" := rfl

theorem sign_isEmpty_false (email secret : Str) (t0 : Nat) :
    (jwt.sign email secret t0).isEmpty = false := by
  cases h : jwt.sign email secret t0 with
  | nil => exact absurd h (sign_ne_nil email secret t0)
  | cons a l => rfl

theorem auth_word_sign (w email secret : Str) (t0 now : Nat)
    (hw : ∀ c ∈ w, c ≠ ' ') (hexp : now < t0 + 7 * 24 * 60 * 60) :
    auth (some (w ++ ' ' :: jwt.sign email secret t0)) secret now =
      .proceed ⟨email, t0, t0 + 7 * 24 * 60 * 60⟩ := by
  have hne : (w ++ ' ' :: jwt.sign email secret t0).isEmpty = false := by
    cases w <;> rfl
  rw [auth]
  simp only [Option.getD_some, hne, Bool.false_eq_true, if_false,
    splitSp_word_append w _ hw,
    splitSp_no_space _ (sign_no_space email secret t0),
    List.getD_cons_succ, List.getD_cons_zero]
  rw [trimStr_no_ws _ (sign_no_ws email secret t0),
    jwt.verify_sign email secret t0 now hexp]

theorem auth_bare_sign (email secret : Str) (t0 now : Nat) :
    auth (some (jwt.sign email secret t0)) secret now =
      .unauthorized "Invalid token" := by
  rw [auth]
  simp only [Option.getD_some, sign_isEmpty_false email secret t0,
    Bool.false_eq_true, if_false,
    splitSp_no_space _ (sign_no_space email secret t0),
    List.getD_cons_succ]
  rfl

/-! ## Claims about the login-or-register endpoint -/

/-- C1: a `POST /api/login` request with both fields present whose email
does not end in the accepted domain suffix `@gmail.com` is answered with
HTTP 400, whatever the password, and the Credential Store is unchanged. -/
theorem login_invalid_domain_rejected
    (db : List Account) (email password : Str) (salt now : Nat) (secret : Str)
    (hdom : gmailSuffix.isSuffixOf email = false) :
    (loginHandler db (some email) (some password) salt now secret).1.statusCode = 400 ∧
    (loginHandler db (some email) (some password) salt now secret).2 = db := by
  cases hmt : (email.isEmpty || password.isEmpty) with
  | true => simp [loginHandler, hmt, LoginResult.statusCode]
  | false => simp [loginHandler, hmt, hdom, LoginResult.statusCode]

theorem login_invalid_domain_rejected_witness :
    (loginHandler [] (some "a@yahoo.com".toList) (some "pw".toList) 0 0
        "devsecret".toList).1.statusCode = 400 ∧
    (loginHandler [] (some "a@yahoo.com".toList) (some "pw".toList) 0 0
        "devsecret".toList).2 = [] :=
  login_invalid_domain_rejected [] "a@yahoo.com".toList "pw".toList 0 0
    "devsecret".toList (by decide)

/-- C2: the first login for a valid, unseen email succeeds with a token
and the email, and appends exactly one Account whose `passwordHash` is
the salted hash (cost 10) of the supplied password. -/
theorem login_first_creates_account
    (db : List Account) (email password : Str) (salt now : Nat) (secret : Str)
    (hdom : gmailSuffix.isSuffixOf email = true)
    (hpw : password ≠ [])
    (hfresh : ∀ u ∈ db, u.email ≠ email) :
    loginHandler db (some email) (some password) salt now secret =
      (.ok (jwt.sign email secret now) email,
        db ++ [{ email := email, passwordHash := bcrypt.hash password 10 salt,
                 createdAt := now }]) := by
  have hee : email ≠ [] := by
    rintro rfl
    exact absurd hdom (by decide)
  have hfind : findOne db email = none := by
    rw [findOne]
    exact List.find?_eq_none.mpr (fun u hu => by simpa using hfresh u hu)
  simp [loginHandler, List.isEmpty_iff, hee, hpw, hdom, hfind]

theorem login_first_creates_account_witness :
    loginHandler [] (some "a@gmail.com".toList) (some "pw".toList) 3 5
        "devsecret".toList =
      (.ok (jwt.sign "a@gmail.com".toList "devsecret".toList 5)
          "a@gmail.com".toList,
        [{ email := "a@gmail.com".toList,
           passwordHash := bcrypt.hash "pw".toList 10 3, createdAt := 5 }]) :=
  login_first_creates_account [] "a@gmail.com".toList "pw".toList 3 5
    "devsecret".toList (by decide) (by decide) (by decide)

/-- C3: a login for an existing Account with the correct password
succeeds and leaves the Credential Store — in particular the stored
`createdAt` and `passwordHash` — exactly as it was. -/
theorem login_existing_correct_password
    (db : List Account) (email password : Str) (salt now : Nat) (secret : Str)
    (u : Account)
    (hdom : gmailSuffix.isSuffixOf email = true)
    (hpw : password ≠ [])
    (hfind : findOne db email = some u)
    (hcmp : bcrypt.compare password u.passwordHash = true) :
    (loginHandler db (some email) (some password) salt now secret).1 =
      .ok (jwt.sign u.email secret now) u.email ∧
    (loginHandler db (some email) (some password) salt now secret).2 = db := by
  have hee : email ≠ [] := by
    rintro rfl
    exact absurd hdom (by decide)
  simp [loginHandler, List.isEmpty_iff, hee, hpw, hdom, hfind, hcmp]

theorem login_existing_correct_password_witness :
    (loginHandler [⟨"a@gmail.com".toList, bcrypt.hash "pw".toList 10 3, 5⟩]
        (some "a@gmail.com".toList) (some "pw".toList) 7 9
        "devsecret".toList).1 =
      .ok (jwt.sign "a@gmail.com".toList "devsecret".toList 9)
        "a@gmail.com".toList ∧
    (loginHandler [⟨"a@gmail.com".toList, bcrypt.hash "pw".toList 10 3, 5⟩]
        (some "a@gmail.com".toList) (some "pw".toList) 7 9
        "devsecret".toList).2 =
      [⟨"a@gmail.com".toList, bcrypt.hash "pw".toList 10 3, 5⟩] :=
  login_existing_correct_password _ "a@gmail.com".toList "pw".toList 7 9
    "devsecret".toList ⟨"a@gmail.com".toList, bcrypt.hash "pw".toList 10 3, 5⟩
    (by decide) (by decide) (by decide) (by decide)

/-- C4: a login for an existing Account with a password that does not
match the stored hash is answered with `Incorrect password` (HTTP 401)
and the Credential Store is unchanged. -/
theorem login_existing_wrong_password
    (db : List Account) (email password : Str) (salt now : Nat) (secret : Str)
    (u : Account)
    (hdom : gmailSuffix.isSuffixOf email = true)
    (hpw : password ≠ [])
    (hfind : findOne db email = some u)
    (hcmp : bcrypt.compare password u.passwordHash = false) :
    (loginHandler db (some email) (some password) salt now secret).1 =
      .unauthorized "Incorrect password" ∧
    (loginHandler db (some email) (some password) salt now secret).1.statusCode = 401 ∧
    (loginHandler db (some email) (some password) salt now secret).2 = db := by
  have hee : email ≠ [] := by
    rintro rfl
    exact absurd hdom (by decide)
  refine ⟨?_, ?_, ?_⟩ <;>
    simp [loginHandler, List.isEmpty_iff, hee, hpw, hdom, hfind, hcmp,
      LoginResult.statusCode]

theorem login_existing_wrong_password_witness :
    (loginHandler [⟨"a@gmail.com".toList, bcrypt.hash "pw".toList 10 3, 5⟩]
        (some "a@gmail.com".toList) (some "wrong".toList) 7 9
        "devsecret".toList).1 =
      .unauthorized "Incorrect password" ∧
    (loginHandler [⟨"a@gmail.com".toList, bcrypt.hash "pw".toList 10 3, 5⟩]
        (some "a@gmail.com".toList) (some "wrong".toList) 7 9
        "devsecret".toList).1.statusCode = 401 ∧
    (loginHandler [⟨"a@gmail.com".toList, bcrypt.hash "pw".toList 10 3, 5⟩]
        (some "a@gmail.com".toList) (some "wrong".toList) 7 9
        "devsecret".toList).2 =
      [⟨"a@gmail.com".toList, bcrypt.hash "pw".toList 10 3, 5⟩] :=
  login_existing_wrong_password _ "a@gmail.com".toList "wrong".toList 7 9
    "devsecret".toList ⟨"a@gmail.com".toList, bcrypt.hash "pw".toList 10 3, 5⟩
    (by decide) (by decide) (by decide) (by decide)

/-! ## Claims about the token issuer/verifier and the Access Guard -/

/-- C5: a token issued by `jwt.sign` for an identity is accepted by
`jwt.verify` with the same secret immediately after issuance and yields
that identity, with `iat` now and `exp` seven days later. -/
theorem issue_verify_roundtrip (email secret : Str) (now : Nat) :
    jwt.verify (jwt.sign email secret now) secret now =
      some ⟨email, now, now + 7 * 24 * 60 * 60⟩ :=
  jwt.verify_sign email secret now now (by omega)

/-- C6: `jwt.verify` fails on a malformed token, on a signature that the
secret does not reproduce, and on an elapsed expiry; and whenever it
succeeds the token was fully valid — there is no partial-validity
outcome. -/
theorem verify_rejects_invalid (tok secret : Str) (now : Nat) :
    (jwt.decode tok = none → jwt.verify tok secret now = none) ∧
    (∀ p sig, jwt.decode tok = some (p, sig) →
      (sig ≠ hmacSig secret (payloadStr p) ∨ p.exp ≤ now) →
      jwt.verify tok secret now = none) ∧
    (∀ p, jwt.verify tok secret now = some p →
      jwt.decode tok = some (p, hmacSig secret (payloadStr p)) ∧ now < p.exp) := by
  refine ⟨?_, ?_, ?_⟩
  · intro h
    rw [jwt.verify, h]
  · intro p sig hdec hbad
    rw [jwt.verify, hdec]
    show (if sig = hmacSig secret (payloadStr p) ∧ now < p.exp
        then some p else none) = none
    rcases hbad with hbad | hbad
    · rw [if_neg]
      rintro ⟨h1, _⟩
      exact hbad h1
    · rw [if_neg]
      rintro ⟨_, h2⟩
      omega
  · intro p hver
    rw [jwt.verify] at hver
    cases hdec : jwt.decode tok with
    | none => rw [hdec] at hver; simp at hver
    | some pr =>
      obtain ⟨p', sig⟩ := pr
      rw [hdec] at hver
      have hver' : (if sig = hmacSig secret (payloadStr p') ∧ now < p'.exp
          then some p' else none) = some p := hver
      by_cases hc : sig = hmacSig secret (payloadStr p') ∧ now < p'.exp
      · rw [if_pos hc] at hver'
        cases hver'
        refine ⟨?_, hc.2⟩
        rw [hc.1]
      · rw [if_neg hc] at hver'
        simp at hver'

theorem verify_rejects_invalid_witness :
    jwt.verify ['x'] ['s'] 0 = none :=
  (verify_rejects_invalid ['x'] ['s'] 0).1 (by decide)

/-- C7: a protected request with no authorization header is answered
`No token` (HTTP 401) without reaching the handler, and one whose header
carries a valid unexpired bearer token proceeds with the identity
recovered from the token attached as `req.user`. -/
theorem access_guard_gate (secret : Str) (now : Nat) :
    auth none secret now = .unauthorized "No token" ∧
    (∀ email t0, now < t0 + 7 * 24 * 60 * 60 →
      auth (some ("Bearer".toList ++ ' ' :: jwt.sign email secret t0)) secret now =
        .proceed ⟨email, t0, t0 + 7 * 24 * 60 * 60⟩) :=
  ⟨auth_absent secret now,
   fun email t0 hexp =>
     auth_word_sign "Bearer".toList email secret t0 now (by decide) hexp⟩

theorem access_guard_gate_witness :
    auth none "devsecret".toList 9 = .unauthorized "No token" ∧
    auth (some ("Bearer".toList ++ ' ' ::
        jwt.sign "a@gmail.com".toList "devsecret".toList 5))
        "devsecret".toList 9 =
      .proceed ⟨"a@gmail.com".toList, 5, 5 + 7 * 24 * 60 * 60⟩ :=
  ⟨(access_guard_gate "devsecret".toList 9).1,
   (access_guard_gate "devsecret".toList 9).2 "a@gmail.com".toList 5 (by omega)⟩

/-- C8: an authenticated `GET /api/me` with a valid unexpired token for
an existing Account answers 200 with that caller's record projected
through `{ passwordHash: 0 }` — the hash field is absent from the
response. -/
theorem me_returns_account_without_hash
    (db : List Account) (email secret : Str) (t0 now : Nat) (a : Account)
    (hexp : now < t0 + 7 * 24 * 60 * 60)
    (hfind : findOne db email = some a) :
    meHandler db (some ("Bearer".toList ++ ' ' :: jwt.sign email secret t0))
        secret now =
      .ok (some ⟨a.email, a.createdAt⟩) := by
  rw [meHandler, auth_word_sign "Bearer".toList email secret t0 now (by decide) hexp]
  simp [hfind]

theorem me_returns_account_without_hash_witness :
    meHandler [⟨"a@gmail.com".toList, bcrypt.hash "pw".toList 10 3, 5⟩]
        (some ("Bearer".toList ++ ' ' ::
          jwt.sign "a@gmail.com".toList "devsecret".toList 5))
        "devsecret".toList 9 =
      .ok (some ⟨"a@gmail.com".toList, 5⟩) :=
  me_returns_account_without_hash _ "a@gmail.com".toList "devsecret".toList 5 9
    ⟨"a@gmail.com".toList, bcrypt.hash "pw".toList 10 3, 5⟩
    (by omega) (by decide)

/-- C10: the guard never inspects the scheme word — any space-free word
in front of a valid token is accepted — while a header holding the bare
token with no space-separated prefix is rejected, because the guard
takes the second space-separated component as the token. -/
theorem guard_ignores_scheme_word (secret : Str) (now : Nat) :
    (∀ w email t0, (∀ c ∈ w, c ≠ ' ') → now < t0 + 7 * 24 * 60 * 60 →
      auth (some (w ++ ' ' :: jwt.sign email secret t0)) secret now =
        .proceed ⟨email, t0, t0 + 7 * 24 * 60 * 60⟩) ∧
    (∀ email t0, auth (some (jwt.sign email secret t0)) secret now =
      .unauthorized "Invalid token") :=
  ⟨fun w email t0 hw hexp => auth_word_sign w email secret t0 now hw hexp,
   fun email t0 => auth_bare_sign email secret t0 now⟩

theorem guard_ignores_scheme_word_witness :
    auth (some ("Token".toList ++ ' ' ::
        jwt.sign "a@gmail.com".toList "devsecret".toList 5))
        "devsecret".toList 9 =
      .proceed ⟨"a@gmail.com".toList, 5, 5 + 7 * 24 * 60 * 60⟩ ∧
    auth (some (jwt.sign "a@gmail.com".toList "devsecret".toList 5))
        "devsecret".toList 9 =
      .unauthorized "Invalid token" :=
  ⟨(guard_ignores_scheme_word "devsecret".toList 9).1 "Token".toList
      "a@gmail.com".toList 5 (by decide) (by omega),
   (guard_ignores_scheme_word "devsecret".toList 9).2 "a@gmail.com".toList 5⟩

/-! ## Claim about the reading-list insert -/

/-- C9: an authenticated reading-list insert is answered 409 and creates
nothing when a document with the caller's `(userEmail, bookKey)` pair
exists, and otherwise appends exactly one entry owned by the caller. -/
theorem reading_insert_unique
    (rl : List RLEntry) (userEmail bookKey : Str) (title : Option Str)
    (coverId : Option Nat) (authors : Option (List Str)) (now : Nat)
    (hbk : bookKey ≠ []) :
    ((∃ it ∈ rl, it.userEmail = userEmail ∧ it.bookKey = bookKey) →
      (addReadingHandler rl userEmail ⟨some bookKey, title, coverId, authors⟩
          now).1.statusCode = 409 ∧
      (addReadingHandler rl userEmail ⟨some bookKey, title, coverId, authors⟩
          now).2 = rl) ∧
    ((∀ it ∈ rl, ¬(it.userEmail = userEmail ∧ it.bookKey = bookKey)) →
      addReadingHandler rl userEmail ⟨some bookKey, title, coverId, authors⟩ now =
        (.ok ⟨userEmail, bookKey, title, coverId, authors, now⟩,
          rl ++ [⟨userEmail, bookKey, title, coverId, authors, now⟩])) := by
  constructor
  · rintro ⟨it, hmem, h1, h2⟩
    have hsome :
        (rl.find? (fun x => x.userEmail == userEmail && x.bookKey == bookKey)).isSome := by
      rw [List.find?_isSome]
      exact ⟨it, hmem, by simp [h1, h2]⟩
    cases hfind : rl.find? (fun x => x.userEmail == userEmail && x.bookKey == bookKey) with
    | none => rw [hfind] at hsome; simp at hsome
    | some x =>
      refine ⟨?_, ?_⟩ <;>
        simp [addReadingHandler, List.isEmpty_iff, hbk, hfind,
          ReadingResult.statusCode]
  · intro hnone
    have hfind :
        rl.find? (fun x => x.userEmail == userEmail && x.bookKey == bookKey) = none :=
      List.find?_eq_none.mpr (fun x hx => by
        simp only [Bool.and_eq_true, beq_iff_eq]
        exact fun hc => hnone x hx hc)
    simp [addReadingHandler, List.isEmpty_iff, hbk, hfind]

theorem reading_insert_unique_witness :
    ((addReadingHandler
        [⟨"a@gmail.com".toList, "/works/OL1W".toList, none, none, none, 5⟩]
        "a@gmail.com".toList ⟨some "/works/OL1W".toList, none, none, none⟩
        9).1.statusCode = 409 ∧
      (addReadingHandler
        [⟨"a@gmail.com".toList, "/works/OL1W".toList, none, none, none, 5⟩]
        "a@gmail.com".toList ⟨some "/works/OL1W".toList, none, none, none⟩
        9).2 =
        [⟨"a@gmail.com".toList, "/works/OL1W".toList, none, none, none, 5⟩]) ∧
    addReadingHandler [] "a@gmail.com".toList
        ⟨some "/works/OL1W".toList, none, none, none⟩ 9 =
      (.ok ⟨"a@gmail.com".toList, "/works/OL1W".toList, none, none, none, 9⟩,
        [⟨"a@gmail.com".toList, "/works/OL1W".toList, none, none, none, 9⟩]) :=
  ⟨(reading_insert_unique
      [⟨"a@gmail.com".toList, "/works/OL1W".toList, none, none, none, 5⟩]
      "a@gmail.com".toList "/works/OL1W".toList none none none 9
      (by decide)).1 (by decide),
   (reading_insert_unique [] "a@gmail.com".toList "/works/OL1W".toList
      none none none 9 (by decide)).2 (by decide)⟩
